import Mathlib

/-!
Shallow embedding of the correlation-chart fulfillment algorithm of
`server/lib/nl/fulfillment/correlation.py`.

External collaborators (the child-place sampler, the variable-existence
service, the variable filter and the chart-registration decision) are fields
of an `Env` record, so every theorem below is quantified over their
behavior.  The helpers that the source imports from modules outside the
sampled sources (`classifications_of_type_from_context`,
`places_from_context`, `svs_from_context`, `add_chart_to_utterance`) are
modelled from the specification, as marked on each definition.

The conversation state (`Conv`) carries the shared block counter, the
output chart list, and an event trace recording every intent attempt,
place attempt, filter invocation and emission attempt, so that claims about
which attempts happen, and in which order, can be stated and settled.
-/

/-- Variable identifiers are opaque strings. -/
abbrev SV := String

/-- The contained-in place type (the `.value` of the python enum). -/
abbrev PlaceType := String

structure Place where
  dcid : String
  name : String
  deriving DecidableEq, Repr

inductive ChartType where
  | SCATTER_CHART
  deriving DecidableEq, Repr

inductive ChartOriginType where
  | PRIMARY_CHART
  deriving DecidableEq, Repr

structure ChartVars where
  svs : List SV
  block_id : Nat
  include_percapita : Bool
  deriving DecidableEq, Repr

/-- A fully-specified chart descriptor registered against the conversation. -/
structure ChartSpec where
  chart_type : ChartType
  chart_vars : ChartVars
  places : List Place
  origin : ChartOriginType
  deriving DecidableEq, Repr

inductive ClassificationType where
  | CONTAINED_IN
  | OTHER
  deriving DecidableEq, Repr

/-- Tagged attribute payload of a classification; `containedIn` mirrors
`ContainedInClassificationAttributes`, `other` stands for every other
attribute variant. -/
inductive ClassificationAttributes where
  | containedIn (contained_in_place_type : PlaceType)
  | other
  deriving DecidableEq, Repr

structure Classification where
  type_ : ClassificationType
  attributes : ClassificationAttributes
  deriving DecidableEq, Repr

/-- Detections carried by one history turn (a prior utterance). -/
structure Turn where
  places : List Place
  svs : List SV
  classifications : List Classification
  deriving DecidableEq, Repr

/-- The current utterance: its own detections plus the history of prior
turns, most recent first. -/
structure Utterance where
  places : List Place
  svs : List SV
  classifications : List Classification
  history : List Turn
  deriving DecidableEq, Repr

/-- Instrumentation events recorded by the embedding while the search runs. -/
inductive Event where
  | intentAttempt (place_type : PlaceType)
  | placeAttempt (place : Place)
  | mainFilter (candidates : List SV)
  | contextFilter (candidates : List SV)
  | emit (place : Place) (sv_1 sv_2 : SV) (block_id : Nat) (accepted : Bool)
  deriving DecidableEq, Repr

/-- Conversation-owned mutable state: the shared block counter, the output
chart list, and the instrumentation trace. -/
structure Conv where
  block_id : Nat
  charts : List ChartSpec
  trace : List Event
  deriving DecidableEq, Repr

/-- External collaborators consumed, not implemented, by this core. -/
structure Env where
  sample_child_places : String → PlaceType → List Place
  sv_has_data : List Place → SV → Bool
  is_sv : SV → Bool
  register : List ChartSpec → ChartSpec → Bool

def pushEvent (conv : Conv) (e : Event) : Conv :=
  { conv with trace := conv.trace ++ [e] }

/-- Modelled from the spec: `sv_existence_for_places` (lib.nl.nl_utils, not
among the sampled sources) returns the subset of candidate variables, in
original order, that have at least one observed value across the sampled
places. -/
def sv_existence_for_places (env : Env) (places : List Place) (svs : List SV) : List SV :=
  svs.filter (fun sv => env.sv_has_data places sv)

/-- Modelled from the spec: `get_only_svs` (lib.nl.nl_utils, not among the
sampled sources) keeps only the identifiers that denote measurable
variables. -/
def get_only_svs (env : Env) (svs : List SV) : List SV :=
  svs.filter env.is_sv

/-- Modelled from the spec: `places_from_context`
(lib.nl.fulfillment.context, not among the sampled sources) returns the
concatenated places drawn from history, most recent turn first. -/
def places_from_context (u : Utterance) : List Place :=
  (u.history.map (fun t => t.places)).flatten

/-- Modelled from the spec: `svs_from_context` (lib.nl.fulfillment.context,
not among the sampled sources) walks the history from most recent to oldest
turn and yields each turn's detected variables. -/
def svs_from_context (u : Utterance) : List (List SV) :=
  u.history.map (fun t => t.svs)

def classifications_of_type (cs : List Classification) (ct : ClassificationType) :
    List Classification :=
  cs.filter (fun c => decide (c.type_ = ct))

/-- Modelled from the spec: `classifications_of_type_from_context`
(lib.nl.fulfillment.context, not among the sampled sources) returns the
matching classifications of the current turn, and falls back to the history
turns, most recent first, when the current turn has none. -/
def classifications_of_type_from_context (u : Utterance) (ct : ClassificationType) :
    List Classification :=
  if (classifications_of_type u.classifications ct).isEmpty then
    (u.history.map (fun t => classifications_of_type t.classifications ct)).flatten
  else
    classifications_of_type u.classifications ct

/-- Modelled from the spec: `add_chart_to_utterance`
(lib.nl.fulfillment.base, not among the sampled sources) asks the
registration collaborator to accept the descriptor; on acceptance the
descriptor is appended to the conversation's output list, on rejection the
list is unchanged; the acceptance boolean is returned either way. -/
def add_chart_to_utterance (env : Env) (conv : Conv) (chart : ChartSpec) : Bool × Conv :=
  let ok := env.register conv.charts chart
  (ok, if ok then { conv with charts := conv.charts ++ [chart] } else conv)

/-- The scatter-chart descriptor built by `_populate_correlation_chart`. -/
def correlationChart (bid : Nat) (place : Place) (sv_1 sv_2 : SV) : ChartSpec :=
  { chart_type := ChartType.SCATTER_CHART,
    chart_vars := { svs := [sv_1, sv_2], block_id := bid, include_percapita := false },
    places := [place],
    origin := ChartOriginType.PRIMARY_CHART }

/-- `_populate_correlation_chart`: increments the block counter, builds the
scatter chart for the pair and registers it; the emission attempt is
recorded in the trace. -/
def _populate_correlation_chart (env : Env) (conv : Conv) (place : Place)
    (sv_1 sv_2 : SV) : Bool × Conv :=
  let conv1 : Conv := { conv with block_id := conv.block_id + 1 }
  let chart := correlationChart conv1.block_id place sv_1 sv_2
  let r := add_chart_to_utterance env conv1 chart
  (r.1, pushEvent r.2 (Event.emit place sv_1 sv_2 conv1.block_id r.1))

/-- The `found |= _populate_correlation_chart(...)` loop over the filtered
main variables, pairing each with the single chosen context variable. -/
def pairLoop (env : Env) (place : Place) (ctx_sv : SV) :
    List SV → Bool → Conv → Bool × Conv
  | [], found, conv => (found, conv)
  | m :: ms, found, conv =>
    let r := _populate_correlation_chart env conv place m ctx_sv
    pairLoop env place ctx_sv ms (found || r.1) r.2

/-- One step of the context-variable deduplication loop: append the
variable unless it was already collected. -/
def dedupAppend (acc : List SV) (sv : SV) : List SV :=
  if sv ∈ acc then acc else acc ++ [sv]

def dedupSVs (svs : List SV) : List SV :=
  svs.foldl dedupAppend []

/-- The context-variable candidate sequence: variables of the history
turns, filtered to variables only, deduplicated first-seen-wins. -/
def context_sv_candidates (env : Env) (u : Utterance) : List SV :=
  dedupSVs (((svs_from_context u).map (fun c_svs => get_only_svs env c_svs)).flatten)

def placesToCheck (env : Env) (place_type : PlaceType) (place : Place) : List Place :=
  env.sample_child_places place.dcid place_type

def mainCandidates (env : Env) (u : Utterance) : List SV :=
  get_only_svs env u.svs

/-- The filtered main-variable sequence for one place attempt. -/
def mainFiltered (env : Env) (u : Utterance) (place_type : PlaceType) (place : Place) :
    List SV :=
  sv_existence_for_places env (placesToCheck env place_type place) (mainCandidates env u)

/-- The filtered context-variable sequence for one place attempt. -/
def contextFiltered (env : Env) (u : Utterance) (place_type : PlaceType) (place : Place) :
    List SV :=
  sv_existence_for_places env (placesToCheck env place_type place)
    (context_sv_candidates env u)

/-- `_populate_correlation_for_place`: filter the main variables, abandon
the attempt if none survive; filter the deduplicated context variables,
abandon if none survive; otherwise pair every surviving main variable with
the first surviving context variable. -/
def _populate_correlation_for_place (env : Env) (u : Utterance) (place_type : PlaceType)
    (conv : Conv) (place : Place) : Bool × Conv :=
  let conv1 := pushEvent conv (Event.placeAttempt place)
  let conv2 := pushEvent conv1 (Event.mainFilter (mainCandidates env u))
  let main_svs := mainFiltered env u place_type place
  if main_svs.isEmpty then
    (false, conv2)
  else
    let conv3 := pushEvent conv2 (Event.contextFilter (context_sv_candidates env u))
    match contextFiltered env u place_type place with
    | [] => (false, conv3)
    | ctx_sv :: _ => pairLoop env place ctx_sv main_svs false conv3

/-- The short-circuiting loop over candidate places. -/
def placesLoop (env : Env) (u : Utterance) (place_type : PlaceType) :
    List Place → Conv → Bool × Conv
  | [], conv => (false, conv)
  | p :: ps, conv =>
    let r := _populate_correlation_for_place env u place_type conv p
    if r.1 then (true, r.2) else placesLoop env u place_type ps r.2

/-- `_populate_correlation_for_place_type`: try the current turn's places
first, then the places drawn from history; stop on the first success. -/
def _populate_correlation_for_place_type (env : Env) (u : Utterance)
    (place_type : PlaceType) (conv : Conv) : Bool × Conv :=
  let conv1 := pushEvent conv (Event.intentAttempt place_type)
  let r := placesLoop env u place_type u.places conv1
  if r.1 then (true, r.2)
  else placesLoop env u place_type (places_from_context u) r.2

/-- The loop of `populate` over the CONTAINED_IN classifications: a
classification whose attributes are not of the contained-in variant is
skipped silently; the first successful attempt stops the search. -/
def populateLoop (env : Env) (u : Utterance) :
    List Classification → Conv → Bool × Conv
  | [], conv => (false, conv)
  | c :: cs, conv =>
    match c.attributes with
    | ClassificationAttributes.containedIn pt =>
      let r := _populate_correlation_for_place_type env u pt conv
      if r.1 then (true, r.2) else populateLoop env u cs r.2
    | ClassificationAttributes.other => populateLoop env u cs conv

/-- `populate`: the top-level entry point of the correlation handler. -/
def populate (env : Env) (u : Utterance) (conv : Conv) : Bool × Conv :=
  populateLoop env u
    (classifications_of_type_from_context u ClassificationType.CONTAINED_IN) conv

/-- The list `[b + 1, b + 2, ..., b + n]` of the next `n` block
identifiers after `b`. -/
def consecIds : Nat → Nat → List Nat
  | _, 0 => []
  | b, n + 1 => (b + 1) :: consecIds (b + 1) n

/-- Projection of one `Event.emit` trace entry. -/
structure EmitInfo where
  place : Place
  sv_1 : SV
  sv_2 : SV
  block_id : Nat
  accepted : Bool
  deriving DecidableEq, Repr

def EmitInfo.toEvent (e : EmitInfo) : Event :=
  Event.emit e.place e.sv_1 e.sv_2 e.block_id e.accepted

/-- The chart descriptor an emission attempt handed to registration. -/
def EmitInfo.toChart (e : EmitInfo) : ChartSpec :=
  correlationChart e.block_id e.place e.sv_1 e.sv_2

/-- The emission attempts recorded in a trace fragment, in order. -/
def emitsOf (tr : List Event) : List EmitInfo :=
  tr.filterMap (fun e =>
    match e with
    | Event.emit p s1 s2 b ok => some ⟨p, s1, s2, b, ok⟩
    | _ => none)

/-- The chart descriptors registered by the accepted attempts, in order. -/
def acceptedCharts (es : List EmitInfo) : List ChartSpec :=
  (es.filter (fun e => e.accepted)).map EmitInfo.toChart

theorem consecIds_length (b n : Nat) : (consecIds b n).length = n := by
  induction n generalizing b with
  | zero => rfl
  | succ n ih => simp [consecIds, ih]

theorem mem_consecIds {x b n : Nat} (h : x ∈ consecIds b n) : b < x := by
  induction n generalizing b with
  | zero => simp [consecIds] at h
  | succ n ih =>
    simp only [consecIds, List.mem_cons] at h
    rcases h with h | h
    · omega
    · have := ih h
      omega

theorem consecIds_pairwise (b n : Nat) : (consecIds b n).Pairwise (· < ·) := by
  induction n generalizing b with
  | zero => simp [consecIds]
  | succ n ih =>
    refine List.pairwise_cons.mpr ⟨fun x hx => ?_, ih (b + 1)⟩
    exact mem_consecIds hx

theorem consecIds_append (b m n : Nat) :
    consecIds b (m + n) = consecIds b m ++ consecIds (b + m) n := by
  induction m generalizing b with
  | zero => simp [consecIds]
  | succ m ih =>
    have : m + 1 + n = (m + n) + 1 := by omega
    rw [this]
    simp only [consecIds, List.cons_append]
    rw [ih (b + 1)]
    have : b + 1 + m = b + (m + 1) := by omega
    rw [this]

theorem emitsOf_nil : emitsOf [] = [] := rfl

theorem emitsOf_append (t1 t2 : List Event) :
    emitsOf (t1 ++ t2) = emitsOf t1 ++ emitsOf t2 := by
  simp [emitsOf, List.filterMap_append]

theorem emitsOf_map_toEvent (es : List EmitInfo) :
    emitsOf (es.map EmitInfo.toEvent) = es := by
  induction es with
  | nil => rfl
  | cons e es ih => simp [emitsOf, EmitInfo.toEvent] at ih ⊢; exact ih

theorem acceptedCharts_append (es1 es2 : List EmitInfo) :
    acceptedCharts (es1 ++ es2) = acceptedCharts es1 ++ acceptedCharts es2 := by
  simp [acceptedCharts, List.filter_append]

/-- Closed form of one emission attempt: the block counter is incremented
first, registration is consulted with the incremented identifier on the
descriptor, the descriptor is appended exactly when accepted, and the
attempt is recorded in the trace. -/
theorem chart_eq (env : Env) (conv : Conv) (place : Place) (s1 s2 : SV) :
    _populate_correlation_chart env conv place s1 s2
      = (env.register conv.charts (correlationChart (conv.block_id + 1) place s1 s2),
         { block_id := conv.block_id + 1,
           charts := conv.charts ++
             (if env.register conv.charts (correlationChart (conv.block_id + 1) place s1 s2)
              then [correlationChart (conv.block_id + 1) place s1 s2] else []),
           trace := conv.trace ++
             [Event.emit place s1 s2 (conv.block_id + 1)
                (env.register conv.charts
                  (correlationChart (conv.block_id + 1) place s1 s2))] }) := by
  cases h : env.register conv.charts (correlationChart (conv.block_id + 1) place s1 s2) <;>
    simp [_populate_correlation_chart, add_chart_to_utterance, pushEvent, h]

/-- Full description of the pairing loop: it performs one emission attempt
per main variable, in order, with consecutive block identifiers, all
against the single context variable, appends exactly the accepted charts,
and aggregates acceptance by OR into the accumulator. -/
theorem pairLoop_spec (env : Env) (place : Place) (cx : SV) :
    ∀ (ms : List SV) (conv : Conv) (found : Bool),
      ∃ es : List EmitInfo,
        pairLoop env place cx ms found conv
          = (found || es.any (fun e => e.accepted),
             { block_id := conv.block_id + ms.length,
               charts := conv.charts ++ acceptedCharts es,
               trace := conv.trace ++ es.map EmitInfo.toEvent }) ∧
        es.map EmitInfo.sv_1 = ms ∧
        (∀ e ∈ es, e.sv_2 = cx ∧ e.place = place) ∧
        es.map EmitInfo.block_id = consecIds conv.block_id ms.length := by
  intro ms
  induction ms with
  | nil =>
    intro conv found
    exact ⟨[], by simp [pairLoop, consecIds, acceptedCharts], by simp, by simp,
      by simp [consecIds]⟩
  | cons m ms ih =>
    intro conv found
    rw [pairLoop, chart_eq]
    set ok := env.register conv.charts (correlationChart (conv.block_id + 1) place m cx)
      with hok
    obtain ⟨es, hrun, hsv1, hmem, hbid⟩ :=
      ih { block_id := conv.block_id + 1,
           charts := conv.charts ++
             (if ok then [correlationChart (conv.block_id + 1) place m cx] else []),
           trace := conv.trace ++
             [Event.emit place m cx (conv.block_id + 1) ok] } (found || ok)
    refine ⟨⟨place, m, cx, conv.block_id + 1, ok⟩ :: es, ?_, ?_, ?_, ?_⟩
    · rw [hrun]
      simp only [Prod.mk.injEq, Conv.mk.injEq]
      refine ⟨by simp [Bool.or_assoc], by simp [List.length_cons]; omega, ?_, ?_⟩
      · cases ok <;> simp [acceptedCharts, EmitInfo.toChart]
      · simp [EmitInfo.toEvent]
    · simp [hsv1]
    · intro e he
      rcases List.mem_cons.mp he with rfl | he
      · exact ⟨rfl, rfl⟩
      · exact hmem e he
    · simp only [List.map_cons, List.length_cons, consecIds]
      rw [hbid]

/-- Closed form of a place attempt whose main-variable filter is empty:
no context filtering, no emission, result false. -/
theorem for_place_main_empty (env : Env) (u : Utterance) (pt : PlaceType)
    (conv : Conv) (place : Place) (h : mainFiltered env u pt place = []) :
    _populate_correlation_for_place env u pt conv place
      = (false, { conv with trace := conv.trace ++
          [Event.placeAttempt place, Event.mainFilter (mainCandidates env u)] }) := by
  simp [_populate_correlation_for_place, h, pushEvent]

/-- Closed form of a place attempt whose context-variable filter is empty:
no emission, result false. -/
theorem for_place_context_empty (env : Env) (u : Utterance) (pt : PlaceType)
    (conv : Conv) (place : Place) (hM : mainFiltered env u pt place ≠ [])
    (hC : contextFiltered env u pt place = []) :
    _populate_correlation_for_place env u pt conv place
      = (false, { conv with trace := conv.trace ++
          [Event.placeAttempt place, Event.mainFilter (mainCandidates env u),
           Event.contextFilter (context_sv_candidates env u)] }) := by
  obtain ⟨m, ms, hm⟩ := List.exists_cons_of_ne_nil hM
  simp [_populate_correlation_for_place, hm, hC, pushEvent]

/-- A place attempt whose two filters are both non-empty runs the pairing
loop over the filtered main variables with the first filtered context
variable. -/
theorem for_place_pairing (env : Env) (u : Utterance) (pt : PlaceType)
    (conv : Conv) (place : Place) (cx : SV) (rest : List SV)
    (hM : mainFiltered env u pt place ≠ [])
    (hC : contextFiltered env u pt place = cx :: rest) :
    _populate_correlation_for_place env u pt conv place
      = pairLoop env place cx (mainFiltered env u pt place) false
          { conv with trace := conv.trace ++
            [Event.placeAttempt place, Event.mainFilter (mainCandidates env u),
             Event.contextFilter (context_sv_candidates env u)] } := by
  obtain ⟨m, ms, hm⟩ := List.exists_cons_of_ne_nil hM
  rw [_populate_correlation_for_place]
  simp [hm, hC, pushEvent]

/-- Run invariant tying a result to the state it started from: the trace and
chart list only grow, the newly recorded emission attempts carry the
consecutive block identifiers after the starting counter, exactly the
accepted attempts' descriptors are appended, and the boolean result is the
OR of the recorded acceptances. -/
def RunOK (conv : Conv) (r : Bool × Conv) : Prop :=
  ∃ tδ : List Event,
    r.2.trace = conv.trace ++ tδ ∧
    r.2.block_id = conv.block_id + (emitsOf tδ).length ∧
    (emitsOf tδ).map EmitInfo.block_id = consecIds conv.block_id (emitsOf tδ).length ∧
    r.2.charts = conv.charts ++ acceptedCharts (emitsOf tδ) ∧
    r.1 = (emitsOf tδ).any (fun e => e.accepted)

theorem RunOK_rfl (conv : Conv) : RunOK conv (false, conv) := by
  exact ⟨[], by simp [emitsOf, consecIds, acceptedCharts]⟩

/-- A trace fragment that records no emission attempt can be prepended to a
run without disturbing the invariant. -/
theorem RunOK_extend_trace (conv : Conv) (t0 : List Event) (r : Bool × Conv)
    (h0 : emitsOf t0 = [])
    (h : RunOK { conv with trace := conv.trace ++ t0 } r) : RunOK conv r := by
  obtain ⟨tδ, h1, h2, h3, h4, h5⟩ := h
  exact ⟨t0 ++ tδ, by simpa [List.append_assoc] using h1,
    by simpa [emitsOf_append, h0] using h2,
    by simpa [emitsOf_append, h0] using h3,
    by simpa [emitsOf_append, h0, acceptedCharts] using h4,
    by simpa [emitsOf_append, h0] using h5⟩

/-- Sequential composition of two runs, when the first reported failure. -/
theorem RunOK_comp (conv c1 : Conv) (r2 : Bool × Conv)
    (h1 : RunOK conv (false, c1)) (h2 : RunOK c1 r2) : RunOK conv r2 := by
  obtain ⟨t1, a1, a2, a3, a4, a5⟩ := h1
  obtain ⟨t2, b1, b2, b3, b4, b5⟩ := h2
  refine ⟨t1 ++ t2, ?_, ?_, ?_, ?_, ?_⟩
  · rw [b1, a1, List.append_assoc]
  · rw [b2, a2, emitsOf_append]
    simp [Nat.add_assoc]
  · rw [emitsOf_append]
    simp only [List.map_append, List.length_append]
    rw [a3, b3, a2, consecIds_append]
  · rw [b4, a4, emitsOf_append, acceptedCharts_append, List.append_assoc]
  · rw [emitsOf_append, List.any_append, ← a5, ← b5]
    simp

/-- Every place attempt satisfies the run invariant. -/
theorem for_place_RunOK (env : Env) (u : Utterance) (pt : PlaceType)
    (conv : Conv) (place : Place) :
    RunOK conv (_populate_correlation_for_place env u pt conv place) := by
  by_cases hM : mainFiltered env u pt place = []
  · rw [for_place_main_empty env u pt conv place hM]
    exact ⟨[Event.placeAttempt place, Event.mainFilter (mainCandidates env u)],
      by simp [emitsOf, consecIds, acceptedCharts]⟩
  · cases hC : contextFiltered env u pt place with
    | nil =>
      rw [for_place_context_empty env u pt conv place hM hC]
      exact ⟨[Event.placeAttempt place, Event.mainFilter (mainCandidates env u),
        Event.contextFilter (context_sv_candidates env u)],
        by simp [emitsOf, consecIds, acceptedCharts]⟩
    | cons cx rest =>
      rw [for_place_pairing env u pt conv place cx rest hM hC]
      obtain ⟨es, hrun, hsv1, hmem, hbid⟩ := pairLoop_spec env place cx
        (mainFiltered env u pt place)
        { conv with trace := conv.trace ++
          [Event.placeAttempt place, Event.mainFilter (mainCandidates env u),
           Event.contextFilter (context_sv_candidates env u)] } false
      rw [hrun]
      have hlen : es.length = (mainFiltered env u pt place).length := by
        rw [← hsv1, List.length_map]
      refine ⟨[Event.placeAttempt place, Event.mainFilter (mainCandidates env u),
        Event.contextFilter (context_sv_candidates env u)] ++ es.map EmitInfo.toEvent,
        ?_, ?_, ?_, ?_, ?_⟩ <;>
        simp only [emitsOf_append, emitsOf_map_toEvent, List.append_assoc] <;>
        simp [emitsOf, hlen, hbid, Bool.false_or]

/-- The place loop satisfies the run invariant. -/
theorem placesLoop_RunOK (env : Env) (u : Utterance) (pt : PlaceType) :
    ∀ (ps : List Place) (conv : Conv), RunOK conv (placesLoop env u pt ps conv) := by
  intro ps
  induction ps with
  | nil => intro conv; exact RunOK_rfl conv
  | cons p ps ih =>
    intro conv
    rw [placesLoop]
    have hp := for_place_RunOK env u pt conv p
    cases hr : (_populate_correlation_for_place env u pt conv p).1 with
    | true =>
      simp only [hr, if_true]
      have : (true, (_populate_correlation_for_place env u pt conv p).2)
          = _populate_correlation_for_place env u pt conv p := by
        rw [← hr]
      rw [this]
      exact hp
    | false =>
      simp only [hr, Bool.false_eq_true, if_false]
      refine RunOK_comp conv (_populate_correlation_for_place env u pt conv p).2 _ ?_
        (ih _)
      have : (false, (_populate_correlation_for_place env u pt conv p).2)
          = _populate_correlation_for_place env u pt conv p := by
        rw [← hr]
      rw [this]
      exact hp

/-- One intent attempt satisfies the run invariant. -/
theorem for_place_type_RunOK (env : Env) (u : Utterance) (pt : PlaceType)
    (conv : Conv) : RunOK conv (_populate_correlation_for_place_type env u pt conv) := by
  rw [_populate_correlation_for_place_type]
  simp only [pushEvent]
  set conv1 : Conv := { conv with trace := conv.trace ++ [Event.intentAttempt pt] }
    with hconv1
  refine RunOK_extend_trace conv [Event.intentAttempt pt] _ (by simp [emitsOf]) ?_
  rw [← hconv1]
  have h1 := placesLoop_RunOK env u pt u.places conv1
  cases hr : (placesLoop env u pt u.places conv1).1 with
  | true =>
    simp only [hr, if_true]
    have : (true, (placesLoop env u pt u.places conv1).2)
        = placesLoop env u pt u.places conv1 := by rw [← hr]
    rw [this]
    exact h1
  | false =>
    simp only [hr, Bool.false_eq_true, if_false]
    refine RunOK_comp conv1 (placesLoop env u pt u.places conv1).2 _ ?_
      (placesLoop_RunOK env u pt (places_from_context u) _)
    have : (false, (placesLoop env u pt u.places conv1).2)
        = placesLoop env u pt u.places conv1 := by rw [← hr]
    rw [this]
    exact h1

/-- The classification loop satisfies the run invariant. -/
theorem populateLoop_RunOK (env : Env) (u : Utterance) :
    ∀ (cs : List Classification) (conv : Conv), RunOK conv (populateLoop env u cs conv) := by
  intro cs
  induction cs with
  | nil => intro conv; exact RunOK_rfl conv
  | cons c cs ih =>
    intro conv
    rw [populateLoop]
    cases c.attributes with
    | other => exact ih conv
    | containedIn pt =>
      have hp := for_place_type_RunOK env u pt conv
      cases hr : (_populate_correlation_for_place_type env u pt conv).1 with
      | true =>
        simp only [hr, if_true]
        have : (true, (_populate_correlation_for_place_type env u pt conv).2)
            = _populate_correlation_for_place_type env u pt conv := by rw [← hr]
        rw [this]
        exact hp
      | false =>
        simp only [hr, Bool.false_eq_true, if_false]
        refine RunOK_comp conv (_populate_correlation_for_place_type env u pt conv).2 _
          ?_ (ih _)
        have : (false, (_populate_correlation_for_place_type env u pt conv).2)
            = _populate_correlation_for_place_type env u pt conv := by rw [← hr]
        rw [this]
        exact hp

/-- The whole search satisfies the run invariant. -/
theorem populate_RunOK (env : Env) (u : Utterance) (conv : Conv) :
    RunOK conv (populate env u conv) :=
  populateLoop_RunOK env u _ conv

/-- The trace fragment a run appended after the starting trace. -/
def newTrace (conv : Conv) (r : Bool × Conv) : List Event :=
  r.2.trace.drop conv.trace.length

/-- The chart descriptors a run appended after the starting output list. -/
def newCharts (conv : Conv) (r : Bool × Conv) : List ChartSpec :=
  r.2.charts.drop conv.charts.length

theorem RunOK.trace_eq {conv : Conv} {r : Bool × Conv} (h : RunOK conv r) :
    r.2.trace = conv.trace ++ newTrace conv r := by
  obtain ⟨tδ, h1, -, -, -, -⟩ := h
  rw [newTrace, h1, List.drop_left]

theorem RunOK.newTrace_spec {conv : Conv} {r : Bool × Conv} (h : RunOK conv r) :
    r.2.block_id = conv.block_id + (emitsOf (newTrace conv r)).length ∧
    (emitsOf (newTrace conv r)).map EmitInfo.block_id
      = consecIds conv.block_id (emitsOf (newTrace conv r)).length ∧
    r.2.charts = conv.charts ++ acceptedCharts (emitsOf (newTrace conv r)) ∧
    r.1 = (emitsOf (newTrace conv r)).any (fun e => e.accepted) := by
  obtain ⟨tδ, h1, h2, h3, h4, h5⟩ := h
  have ht : newTrace conv r = tδ := by rw [newTrace, h1, List.drop_left]
  rw [ht]
  exact ⟨h2, h3, h4, h5⟩

theorem RunOK.newCharts_eq {conv : Conv} {r : Bool × Conv} (h : RunOK conv r) :
    newCharts conv r = acceptedCharts (emitsOf (newTrace conv r)) := by
  have h4 := h.newTrace_spec.2.2.1
  rw [newCharts, h4, List.drop_left]

/-- Claim C1: for every conversational turn, `populate` returns true if and
only if some (intent, place) combination attempted by the search produced
at least one successful chart emission (an emission attempt whose
registration returned true, visible both as an accepted emit event in the
trace and as growth of the output chart list); when no combination does, it
returns false. -/
theorem populate_true_iff_successful_emission (env : Env) (u : Utterance) (conv : Conv) :
    ((populate env u conv).1 = true
      ↔ ∃ e ∈ emitsOf (newTrace conv (populate env u conv)), e.accepted = true)
    ∧ ((populate env u conv).1 = true
      ↔ conv.charts.length < (populate env u conv).2.charts.length) := by
  have h := populate_RunOK env u conv
  obtain ⟨h2, h3, h4, h5⟩ := h.newTrace_spec
  constructor
  · rw [h5]
    exact List.any_eq_true
  · rw [h5, h4, List.any_eq_true, List.length_append]
    constructor
    · rintro ⟨e, he, hacc⟩
      have : acceptedCharts (emitsOf (newTrace conv (populate env u conv))) ≠ [] := by
        simp only [acceptedCharts, ne_eq, List.map_eq_nil_iff, List.filter_eq_nil_iff]
        intro hall
        exact (hall e he) hacc
      have := List.length_pos.mpr this
      omega
    · intro hlt
      have : acceptedCharts (emitsOf (newTrace conv (populate env u conv))) ≠ [] := by
        intro hnil
        rw [hnil] at hlt
        simp at hlt
      simp only [acceptedCharts, ne_eq, List.map_eq_nil_iff, List.filter_eq_nil_iff] at this
      push_neg at this
      obtain ⟨e, he, hacc⟩ := this
      exact ⟨e, he, by simpa using hacc⟩

/-- Claim C2: a place attempt that reaches pairing with non-empty filtered
main variables M and non-empty filtered context variables C performs
exactly one emission attempt per element of M, in order, each paired with
the first element of C (no later element of C is used); all attempts are
performed regardless of earlier successes, and the attempt's result is true
iff at least one emission attempt was accepted. -/
theorem pairing_attempts_every_main_with_first_context (env : Env) (u : Utterance)
    (pt : PlaceType) (conv : Conv) (place : Place)
    (hM : mainFiltered env u pt place ≠ [])
    (hC : contextFiltered env u pt place ≠ []) :
    ∃ es : List EmitInfo,
      (_populate_correlation_for_place env u pt conv place).2.trace
        = conv.trace ++ [Event.placeAttempt place,
            Event.mainFilter (mainCandidates env u),
            Event.contextFilter (context_sv_candidates env u)]
          ++ es.map EmitInfo.toEvent
      ∧ es.map EmitInfo.sv_1 = mainFiltered env u pt place
      ∧ es.length = (mainFiltered env u pt place).length
      ∧ (∀ e ∈ es, e.sv_2 = (contextFiltered env u pt place).head hC
          ∧ e.place = place)
      ∧ (_populate_correlation_for_place env u pt conv place).1
          = es.any (fun e => e.accepted) := by
  obtain ⟨cx, rest, hc⟩ := List.exists_cons_of_ne_nil hC
  rw [for_place_pairing env u pt conv place cx rest hM hc]
  obtain ⟨es, hrun, hsv1, hmem, hbid⟩ := pairLoop_spec env place cx
    (mainFiltered env u pt place)
    { conv with trace := conv.trace ++
      [Event.placeAttempt place, Event.mainFilter (mainCandidates env u),
       Event.contextFilter (context_sv_candidates env u)] } false
  rw [hrun]
  refine ⟨es, by simp [List.append_assoc], hsv1, by rw [← hsv1, List.length_map], ?_, by simp⟩
  intro e he
  have hhead : (contextFiltered env u pt place).head hC = cx := by
    simp [hc]
  rw [hhead]
  exact hmem e he

/-- Claim C3 (amended): every emission attempt, accepted or rejected,
consumes the next block identifier, so the identifiers recorded by the
successive attempts of one conversation increase by exactly 1; the
registered charts carry exactly the accepted attempts' identifiers, hence
the identifiers on successively registered charts are strictly increasing,
though not necessarily by exactly 1 when a rejected attempt intervenes. -/
theorem block_ids_consecutive_per_attempt (env : Env) (u : Utterance) (conv : Conv) :
    (emitsOf (newTrace conv (populate env u conv))).map EmitInfo.block_id
      = consecIds conv.block_id (emitsOf (newTrace conv (populate env u conv))).length
    ∧ (newCharts conv (populate env u conv)).map (fun c => c.chart_vars.block_id)
      = ((emitsOf (newTrace conv (populate env u conv))).filter
          (fun e => e.accepted)).map EmitInfo.block_id
    ∧ ((newCharts conv (populate env u conv)).map
        (fun c => c.chart_vars.block_id)).Pairwise (· < ·) := by
  have h := populate_RunOK env u conv
  obtain ⟨-, h3, -, -⟩ := h.newTrace_spec
  have hcharts := h.newCharts_eq
  have hmapbid : (newCharts conv (populate env u conv)).map
      (fun c => c.chart_vars.block_id)
      = ((emitsOf (newTrace conv (populate env u conv))).filter
          (fun e => e.accepted)).map EmitInfo.block_id := by
    rw [hcharts, acceptedCharts, List.map_map]
    rfl
  refine ⟨h3, hmapbid, ?_⟩
  rw [hmapbid]
  have hpw : ((emitsOf (newTrace conv (populate env u conv))).map
      EmitInfo.block_id).Pairwise (· < ·) := by
    rw [h3]
    exact consecIds_pairwise _ _
  have hsub : List.Sublist
      (((emitsOf (newTrace conv (populate env u conv))).filter
        (fun e => e.accepted)).map EmitInfo.block_id)
      ((emitsOf (newTrace conv (populate env u conv))).map EmitInfo.block_id) :=
    List.Sublist.map EmitInfo.block_id (List.filter_sublist _)
  exact hpw.sublist hsub

/-- Claim C4: once some candidate intent in the ordered sequence yields a
successful emission, appending any further candidate intents leaves the
result, the output charts and the trace unchanged — no later candidate is
ever attempted, even one that would itself have succeeded. -/
theorem intent_search_short_circuits_on_success (env : Env) (u : Utterance)
    (cs rest : List Classification) (conv : Conv)
    (h : (populateLoop env u cs conv).1 = true) :
    populateLoop env u (cs ++ rest) conv = populateLoop env u cs conv := by
  induction cs generalizing conv with
  | nil => simp [populateLoop] at h
  | cons c cs ih =>
    obtain ⟨ct, cattr⟩ := c
    cases cattr with
    | containedIn pt =>
      simp only [List.cons_append, populateLoop] at h ⊢
      cases hr : (_populate_correlation_for_place_type env u pt conv).1 with
      | true => simp [hr]
      | false =>
        simp only [hr, Bool.false_eq_true, if_false] at h ⊢
        exact ih _ h
    | other =>
      simp only [List.cons_append, populateLoop] at h ⊢
      exact ih _ h

/-- The places whose attempts a trace fragment records, in order. -/
def placesAttempted (tr : List Event) : List Place :=
  tr.filterMap (fun e =>
    match e with
    | Event.placeAttempt p => some p
    | _ => none)

theorem placesAttempted_append (t1 t2 : List Event) :
    placesAttempted (t1 ++ t2) = placesAttempted t1 ++ placesAttempted t2 := by
  simp [placesAttempted, List.filterMap_append]

theorem placesAttempted_map_toEvent (es : List EmitInfo) :
    placesAttempted (es.map EmitInfo.toEvent) = [] := by
  induction es with
  | nil => rfl
  | cons e es ih => simp [placesAttempted, EmitInfo.toEvent, ih]

/-- A place attempt records exactly one place-attempt event: its own. -/
theorem for_place_attempts (env : Env) (u : Utterance) (pt : PlaceType)
    (conv : Conv) (place : Place) :
    ∃ tδ, (_populate_correlation_for_place env u pt conv place).2.trace
        = conv.trace ++ tδ ∧ placesAttempted tδ = [place] := by
  by_cases hM : mainFiltered env u pt place = []
  · rw [for_place_main_empty env u pt conv place hM]
    exact ⟨_, rfl, by simp [placesAttempted]⟩
  · cases hC : contextFiltered env u pt place with
    | nil =>
      rw [for_place_context_empty env u pt conv place hM hC]
      exact ⟨_, rfl, by simp [placesAttempted]⟩
    | cons cx rest =>
      rw [for_place_pairing env u pt conv place cx rest hM hC]
      obtain ⟨es, hrun, -, -, -⟩ := pairLoop_spec env place cx
        (mainFiltered env u pt place)
        { conv with trace := conv.trace ++
          [Event.placeAttempt place, Event.mainFilter (mainCandidates env u),
           Event.contextFilter (context_sv_candidates env u)] } false
      rw [hrun]
      refine ⟨[Event.placeAttempt place, Event.mainFilter (mainCandidates env u),
        Event.contextFilter (context_sv_candidates env u)] ++ es.map EmitInfo.toEvent,
        by simp [List.append_assoc], ?_⟩
      rw [placesAttempted_append, placesAttempted_map_toEvent]
      simp [placesAttempted]

/-- The place loop attempts a prefix of its candidate list, and attempts
all of it when it reports failure. -/
theorem placesLoop_attempts (env : Env) (u : Utterance) (pt : PlaceType) :
    ∀ (ps : List Place) (conv : Conv),
      ∃ tδ k, (placesLoop env u pt ps conv).2.trace = conv.trace ++ tδ
        ∧ placesAttempted tδ = ps.take k
        ∧ ((placesLoop env u pt ps conv).1 = false → placesAttempted tδ = ps) := by
  intro ps
  induction ps with
  | nil =>
    intro conv
    exact ⟨[], 0, by simp [placesLoop], by simp [placesAttempted], fun _ => rfl⟩
  | cons p ps ih =>
    intro conv
    obtain ⟨t1, h1, hp1⟩ := for_place_attempts env u pt conv p
    rw [placesLoop]
    cases hr : (_populate_correlation_for_place env u pt conv p).1 with
    | true =>
      refine ⟨t1, 1, ?_, ?_, ?_⟩
      · simpa [hr] using h1
      · simpa using hp1
      · simp [hr]
    | false =>
      obtain ⟨t2, k2, h2, hp2, hfull⟩ :=
        ih (_populate_correlation_for_place env u pt conv p).2
      refine ⟨t1 ++ t2, k2 + 1, ?_, ?_, ?_⟩
      · simp only [hr, Bool.false_eq_true, if_false]
        rw [h2, h1, List.append_assoc]
      · rw [placesAttempted_append, hp1, hp2, List.take_succ_cons]
        rfl
      · intro hfail
        simp only [hr, Bool.false_eq_true, if_false] at hfail
        rw [placesAttempted_append, hp1, hfull hfail]
        rfl

/-- Claim C5 (amended): inside one intent attempt the current turn's
detected places are searched first, and when every one of them fails —
even though the current-turn place sequence is non-empty — the search goes
on to the history-derived places in order; history places are skipped only
when a current-turn place succeeds. -/
theorem history_places_follow_failed_current_places (env : Env) (u : Utterance)
    (pt : PlaceType) (conv : Conv)
    (h : (placesLoop env u pt u.places (pushEvent conv (Event.intentAttempt pt))).1
        = false) :
    ∃ k, placesAttempted
        (newTrace conv (_populate_correlation_for_place_type env u pt conv))
      = u.places ++ (places_from_context u).take k := by
  have hne : ¬ ((placesLoop env u pt u.places
      (pushEvent conv (Event.intentAttempt pt))).1 = true) := by simp [h]
  have hres : _populate_correlation_for_place_type env u pt conv
      = placesLoop env u pt (places_from_context u)
          (placesLoop env u pt u.places (pushEvent conv (Event.intentAttempt pt))).2 := by
    simp only [_populate_correlation_for_place_type, if_neg hne]
  obtain ⟨t1, k1, h1, hp1, hfull1⟩ :=
    placesLoop_attempts env u pt u.places (pushEvent conv (Event.intentAttempt pt))
  obtain ⟨t2, k2, h2, hp2, -⟩ :=
    placesLoop_attempts env u pt (places_from_context u)
      (placesLoop env u pt u.places (pushEvent conv (Event.intentAttempt pt))).2
  refine ⟨k2, ?_⟩
  rw [newTrace, hres, h2, h1]
  simp only [pushEvent, List.append_assoc]
  rw [List.drop_left]
  simp only [placesAttempted_append, hfull1 h, hp2]
  simp [placesAttempted]

/-- Claim C6: a place attempt whose main-variable or context-variable
existence filter comes back empty returns false, emits no chart descriptor
referencing that place (no emission attempt at all and the output chart
list is unchanged), and the place search proceeds to the next candidate
place rather than terminating. -/
theorem empty_filter_abandons_place_attempt (env : Env) (u : Utterance)
    (pt : PlaceType) (conv : Conv) (place : Place) (ps : List Place)
    (h : mainFiltered env u pt place = [] ∨ contextFiltered env u pt place = []) :
    (_populate_correlation_for_place env u pt conv place).1 = false
    ∧ (_populate_correlation_for_place env u pt conv place).2.charts = conv.charts
    ∧ emitsOf (newTrace conv (_populate_correlation_for_place env u pt conv place)) = []
    ∧ placesLoop env u pt (place :: ps) conv
        = placesLoop env u pt ps (_populate_correlation_for_place env u pt conv place).2
    := by
  have hclosed : ∃ t0, emitsOf t0 = [] ∧
      _populate_correlation_for_place env u pt conv place
        = (false, { conv with trace := conv.trace ++ t0 }) := by
    by_cases hM : mainFiltered env u pt place = []
    · exact ⟨_, by simp [emitsOf], for_place_main_empty env u pt conv place hM⟩
    · rcases h with h | hC
      · exact absurd h hM
      · exact ⟨_, by simp [emitsOf], for_place_context_empty env u pt conv place hM hC⟩
  obtain ⟨t0, ht0, heq⟩ := hclosed
  refine ⟨by rw [heq], by rw [heq], ?_, ?_⟩
  · rw [newTrace, heq]
    simpa using ht0
  · rw [placesLoop, heq]
    simp

/-- Index of the first occurrence of a variable in a list (length of the
list when absent). -/
def firstIdx : List SV → SV → Nat
  | [], _ => 0
  | y :: ys, x => if y = x then 0 else firstIdx ys x + 1

/-- Full description of the deduplication fold with an arbitrary
already-collected accumulator. -/
theorem dedup_go (l : List SV) : ∀ acc : List SV, acc.Nodup →
    ∃ d : List SV, l.foldl dedupAppend acc = acc ++ d
      ∧ List.Sublist d l
      ∧ (acc ++ d).Nodup
      ∧ (∀ x, x ∈ d ↔ x ∈ l ∧ x ∉ acc)
      ∧ d.Pairwise (fun a b => firstIdx l a < firstIdx l b) := by
  induction l with
  | nil =>
    intro acc hacc
    exact ⟨[], by simp, List.nil_sublist [], by simpa using hacc, by simp, by simp⟩
  | cons x xs ih =>
    intro acc hacc
    by_cases hx : x ∈ acc
    · have hstep : List.foldl dedupAppend acc (x :: xs)
          = List.foldl dedupAppend acc xs := by
        simp [List.foldl_cons, dedupAppend, hx]
      obtain ⟨d, h1, h2, h3, h4, h5⟩ := ih acc hacc
      refine ⟨d, by rw [hstep, h1], h2.cons x, h3, ?_, ?_⟩
      · intro y
        rw [h4 y]
        constructor
        · rintro ⟨hm, hn⟩
          exact ⟨List.mem_cons_of_mem _ hm, hn⟩
        · rintro ⟨hm, hn⟩
          rcases List.mem_cons.mp hm with rfl | hm
          · exact absurd hx hn
          · exact ⟨hm, hn⟩
      · refine List.Pairwise.imp_of_mem ?_ h5
        intro a b ha hb hr
        have hax : x ≠ a := by
          intro heq
          exact ((h4 a).mp ha).2 (heq ▸ hx)
        have hbx : x ≠ b := by
          intro heq
          exact ((h4 b).mp hb).2 (heq ▸ hx)
        simp only [firstIdx, if_neg hax, if_neg hbx]
        omega
    · have hstep : List.foldl dedupAppend acc (x :: xs)
          = List.foldl dedupAppend (acc ++ [x]) xs := by
        simp [List.foldl_cons, dedupAppend, hx]
      have hacc2 : (acc ++ [x]).Nodup := by
        simp [List.nodup_append, hacc, hx]
      obtain ⟨d, h1, h2, h3, h4, h5⟩ := ih (acc ++ [x]) hacc2
      have hdx : ∀ y ∈ d, x ≠ y := by
        intro y hy heq
        exact ((h4 y).mp hy).2 (List.mem_append_right acc (heq ▸ List.mem_cons_self x []))
      refine ⟨x :: d, ?_, h2.cons₂ x, ?_, ?_, ?_⟩
      · rw [hstep, h1, List.append_assoc, List.singleton_append]
      · rw [← List.singleton_append, ← List.append_assoc]
        exact h3
      · intro y
        constructor
        · intro hm
          rcases List.mem_cons.mp hm with rfl | hm
          · exact ⟨List.mem_cons_self y xs, hx⟩
          · have hyd := (h4 y).mp hm
            refine ⟨List.mem_cons_of_mem _ hyd.1, fun hc => hyd.2 ?_⟩
            exact List.mem_append_left [x] hc
        · rintro ⟨hm, hn⟩
          rcases List.mem_cons.mp hm with rfl | hm
          · exact List.mem_cons_self y d
          · by_cases hyx : y = x
            · exact hyx ▸ List.mem_cons_self x d
            · refine List.mem_cons_of_mem _ ((h4 y).mpr ⟨hm, ?_⟩)
              simp [List.mem_append, hn, hyx]
      · refine List.pairwise_cons.mpr ⟨?_, ?_⟩
        · intro b hb
          have hbx : x ≠ b := hdx b hb
          have hx0 : firstIdx (x :: xs) x = 0 := by simp [firstIdx]
          have hb1 : firstIdx (x :: xs) b = firstIdx xs b + 1 := by
            simp [firstIdx, hbx]
          omega
        · refine List.Pairwise.imp_of_mem ?_ h5
          intro a b ha hb hr
          have hax : x ≠ a := hdx a ha
          have hbx : x ≠ b := hdx b hb
          simp only [firstIdx, if_neg hax, if_neg hbx]
          omega

/-- Claim C7: the deduplicated context-variable candidate sequence contains
no identifier twice, is a subsequence of the raw history-collected
sequence, contains exactly the raw sequence's identifiers, and lists them
in strictly increasing order of first occurrence — i.e. each identifier
stays at the position of its first (most recent) occurrence and the
relative order of first occurrences is preserved. -/
theorem context_candidates_dedup_first_seen (env : Env) (u : Utterance) :
    (context_sv_candidates env u).Nodup
    ∧ List.Sublist (context_sv_candidates env u)
        (((svs_from_context u).map (fun c_svs => get_only_svs env c_svs)).flatten)
    ∧ (∀ x, x ∈ context_sv_candidates env u
        ↔ x ∈ ((svs_from_context u).map (fun c_svs => get_only_svs env c_svs)).flatten)
    ∧ (context_sv_candidates env u).Pairwise (fun a b =>
        firstIdx (((svs_from_context u).map (fun c_svs => get_only_svs env c_svs)).flatten) a
          < firstIdx (((svs_from_context u).map
              (fun c_svs => get_only_svs env c_svs)).flatten) b) := by
  obtain ⟨d, h1, h2, h3, h4, h5⟩ :=
    dedup_go (((svs_from_context u).map (fun c_svs => get_only_svs env c_svs)).flatten)
      [] List.nodup_nil
  have hd : context_sv_candidates env u = d := by
    rw [context_sv_candidates, dedupSVs, h1, List.nil_append]
  rw [hd]
  refine ⟨by simpa using h3, h2, ?_, h5⟩
  intro x
  rw [h4 x]
  simp

/-- Events that can occur before any context-variable filtering: intent and
place attempts, and a main-variable filter invocation whose candidate list
is empty; context-filter invocations and emission attempts are excluded. -/
def preContextEvent (e : Event) : Bool :=
  match e with
  | Event.intentAttempt _ => true
  | Event.placeAttempt _ => true
  | Event.mainFilter candidates => candidates.isEmpty
  | Event.contextFilter _ => false
  | Event.emit _ _ _ _ _ => false

theorem mainCandidates_of_empty_svs (env : Env) (u : Utterance) (h : u.svs = []) :
    mainCandidates env u = [] := by
  simp [mainCandidates, get_only_svs, h]

theorem mainFiltered_of_empty_svs (env : Env) (u : Utterance) (pt : PlaceType)
    (place : Place) (h : u.svs = []) : mainFiltered env u pt place = [] := by
  simp [mainFiltered, sv_existence_for_places, mainCandidates_of_empty_svs env u h]

/-- With no current-turn variables, every place attempt fails right after
the (empty) main-variable filter, and only pre-context events are traced. -/
theorem placesLoop_empty_svs (env : Env) (u : Utterance) (pt : PlaceType)
    (h : u.svs = []) :
    ∀ (ps : List Place) (conv : Conv),
      ∃ tδ, placesLoop env u pt ps conv
          = (false, { conv with trace := conv.trace ++ tδ })
        ∧ ∀ e ∈ tδ, preContextEvent e = true := by
  intro ps
  induction ps with
  | nil =>
    intro conv
    exact ⟨[], by simp [placesLoop], by simp⟩
  | cons p ps ih =>
    intro conv
    have hfp := for_place_main_empty env u pt conv p
      (mainFiltered_of_empty_svs env u pt p h)
    obtain ⟨tδ, hrec, hben⟩ := ih
      { conv with trace := conv.trace ++
        [Event.placeAttempt p, Event.mainFilter (mainCandidates env u)] }
    refine ⟨[Event.placeAttempt p, Event.mainFilter (mainCandidates env u)] ++ tδ,
      ?_, ?_⟩
    · rw [placesLoop, hfp]
      simp only [Bool.false_eq_true, if_false]
      rw [hrec]
      simp [List.append_assoc]
    · intro e he
      rcases List.mem_append.mp he with he | he
      · have hmc := mainCandidates_of_empty_svs env u h
        rcases List.mem_cons.mp he with rfl | he
        · rfl
        · rcases List.mem_cons.mp he with rfl | he
          · simp [preContextEvent, hmc]
          · simp at he
      · exact hben e he

/-- With no current-turn variables, a whole intent attempt fails and only
pre-context events are traced. -/
theorem for_place_type_empty_svs (env : Env) (u : Utterance) (pt : PlaceType)
    (h : u.svs = []) (conv : Conv) :
    ∃ tδ, _populate_correlation_for_place_type env u pt conv
        = (false, { conv with trace := conv.trace ++ tδ })
      ∧ ∀ e ∈ tδ, preContextEvent e = true := by
  obtain ⟨t1, h1, hb1⟩ := placesLoop_empty_svs env u pt h u.places
    (pushEvent conv (Event.intentAttempt pt))
  obtain ⟨t2, h2, hb2⟩ := placesLoop_empty_svs env u pt h (places_from_context u)
    { pushEvent conv (Event.intentAttempt pt) with
      trace := (pushEvent conv (Event.intentAttempt pt)).trace ++ t1 }
  refine ⟨[Event.intentAttempt pt] ++ t1 ++ t2, ?_, ?_⟩
  · rw [_populate_correlation_for_place_type, h1]
    simp only [Bool.false_eq_true, if_false]
    rw [h2]
    simp [pushEvent, List.append_assoc]
  · intro e he
    rcases List.mem_append.mp he with he | he
    · rcases List.mem_append.mp he with he | he
      · rcases List.mem_cons.mp he with rfl | he
        · rfl
        · simp at he
      · exact hb1 e he
    · exact hb2 e he

/-- With no current-turn variables, the classification loop fails and only
pre-context events are traced. -/
theorem populateLoop_empty_svs (env : Env) (u : Utterance) (h : u.svs = []) :
    ∀ (cs : List Classification) (conv : Conv),
      ∃ tδ, populateLoop env u cs conv
          = (false, { conv with trace := conv.trace ++ tδ })
        ∧ ∀ e ∈ tδ, preContextEvent e = true := by
  intro cs
  induction cs with
  | nil =>
    intro conv
    exact ⟨[], by simp [populateLoop], by simp⟩
  | cons c cs ih =>
    intro conv
    obtain ⟨ct, cattr⟩ := c
    cases cattr with
    | other =>
      obtain ⟨tδ, h1, hb⟩ := ih conv
      refine ⟨tδ, ?_, hb⟩
      simp only [populateLoop]
      exact h1
    | containedIn pt =>
      obtain ⟨t1, h1, hb1⟩ := for_place_type_empty_svs env u pt h conv
      obtain ⟨t2, h2, hb2⟩ := ih { conv with trace := conv.trace ++ t1 }
      refine ⟨t1 ++ t2, ?_, ?_⟩
      · simp only [populateLoop]
        rw [h1]
        simp only [Bool.false_eq_true, if_false]
        rw [h2]
        simp [List.append_assoc]
      · intro e he
        rcases List.mem_append.mp he with he | he
        · exact hb1 e he
        · exact hb2 e he

/-- Claim C8 (amended): when the current turn detects no variables, the
place attempts are abandoned right after the main-variable existence filter
— which IS still invoked, with an empty candidate list (every traced
main-filter event carries empty candidates) — before any context-variable
filter invocation or emission attempt, and `populate` returns false with
the output chart list unchanged. -/
theorem empty_svs_populate_false (env : Env) (u : Utterance) (conv : Conv)
    (h : u.svs = []) :
    (populate env u conv).1 = false
    ∧ (populate env u conv).2.charts = conv.charts
    ∧ ∀ e ∈ newTrace conv (populate env u conv), preContextEvent e = true := by
  obtain ⟨tδ, h1, hb⟩ := populateLoop_empty_svs env u h
    (classifications_of_type_from_context u ClassificationType.CONTAINED_IN) conv
  rw [populate, h1]
  refine ⟨rfl, rfl, ?_⟩
  intro e he
  rw [newTrace] at he
  simp only [List.drop_left] at he
  exact hb e he

/-- Whether a classification is of the scope-to-contained-place-type kind:
CONTAINED_IN type tag with the contained-in attribute variant. -/
def isCorrelationIntentB (c : Classification) : Bool :=
  match c.type_, c.attributes with
  | ClassificationType.CONTAINED_IN, ClassificationAttributes.containedIn _ => true
  | _, _ => false

/-- All classifications of the conversation: the current turn's followed by
every history turn's. -/
def allClassifications (u : Utterance) : List Classification :=
  u.classifications ++ (u.history.map (fun t => t.classifications)).flatten

theorem populateLoop_skips_non_contained (env : Env) (u : Utterance) :
    ∀ (cs : List Classification) (conv : Conv),
      (∀ c ∈ cs, ∀ pt, c.attributes ≠ ClassificationAttributes.containedIn pt) →
      populateLoop env u cs conv = (false, conv) := by
  intro cs
  induction cs with
  | nil => intro conv _; rfl
  | cons c cs ih =>
    intro conv hall
    obtain ⟨ct, cattr⟩ := c
    cases cattr with
    | containedIn pt =>
      exact absurd rfl (hall ⟨ct, ClassificationAttributes.containedIn pt⟩
        (List.mem_cons_self _ _) pt)
    | other =>
      simp only [populateLoop]
      exact ih conv (fun c hc => hall c (List.mem_cons_of_mem _ hc))

theorem mem_from_context_type (u : Utterance) (ct : ClassificationType)
    (c : Classification)
    (hc : c ∈ classifications_of_type_from_context u ct) :
    c.type_ = ct ∧ c ∈ allClassifications u := by
  rw [classifications_of_type_from_context] at hc
  by_cases hemp : (classifications_of_type u.classifications ct).isEmpty
  · rw [if_pos hemp] at hc
    simp only [List.mem_flatten, List.mem_map] at hc
    obtain ⟨l, ⟨t, ht, rfl⟩, hcl⟩ := hc
    rw [classifications_of_type, List.mem_filter] at hcl
    refine ⟨of_decide_eq_true hcl.2, ?_⟩
    rw [allClassifications, List.mem_append]
    right
    simp only [List.mem_flatten, List.mem_map]
    exact ⟨t.classifications, ⟨t, ht, rfl⟩, hcl.1⟩
  · rw [if_neg hemp] at hc
    rw [classifications_of_type, List.mem_filter] at hc
    exact ⟨of_decide_eq_true hc.2, List.mem_append_left _ hc.1⟩

/-- Claim C9: a conversation whose entire turn history contains no intent
of the scope-to-contained-place-type kind — including histories whose
classifications are only of other kinds or carry a wrong attribute variant,
which are skipped silently — makes `populate` return false with the whole
conversation state (in particular the output chart list) unchanged. -/
theorem no_contained_in_intent_leaves_conversation_unchanged (env : Env)
    (u : Utterance) (conv : Conv)
    (h : ∀ c ∈ allClassifications u, isCorrelationIntentB c = false) :
    populate env u conv = (false, conv) := by
  rw [populate]
  apply populateLoop_skips_non_contained
  intro c hc pt hattr
  obtain ⟨hty, hmem⟩ := mem_from_context_type u ClassificationType.CONTAINED_IN c hc
  have hfalse := h c hmem
  rw [isCorrelationIntentB] at hfalse
  rw [hty, hattr] at hfalse
  simp at hfalse

/-- Claim C10: every emission attempt increments the shared block counter
by exactly 1 before the registration decision is consulted (the descriptor
handed to registration carries the incremented identifier), uncondi-
tionally; hence a place attempt that reaches pairing with n filtered main
variables increases the block counter by exactly n, regardless of how many
registrations are accepted. -/
theorem block_counter_increment_per_emission (env : Env) (u : Utterance)
    (pt : PlaceType) (conv : Conv) (place : Place)
    (hM : mainFiltered env u pt place ≠ [])
    (hC : contextFiltered env u pt place ≠ []) :
    (∀ (c2 : Conv) (s1 s2 : SV),
        (_populate_correlation_chart env c2 place s1 s2).2.block_id = c2.block_id + 1
        ∧ (_populate_correlation_chart env c2 place s1 s2).1
            = env.register c2.charts (correlationChart (c2.block_id + 1) place s1 s2))
    ∧ (_populate_correlation_for_place env u pt conv place).2.block_id
        = conv.block_id + (mainFiltered env u pt place).length := by
  constructor
  · intro c2 s1 s2
    rw [chart_eq]
    exact ⟨rfl, rfl⟩
  · obtain ⟨cx, rest, hc⟩ := List.exists_cons_of_ne_nil hC
    rw [for_place_pairing env u pt conv place cx rest hM hc]
    obtain ⟨es, hrun, hsv1, -, -⟩ := pairLoop_spec env place cx
      (mainFiltered env u pt place)
      { conv with trace := conv.trace ++
        [Event.placeAttempt place, Event.mainFilter (mainCandidates env u),
         Event.contextFilter (context_sv_candidates env u)] } false
    rw [hrun]

/-- Example variable identifiers and places for concrete runs. -/
def svA : SV := "A"

def svB : SV := "B"

def svC : SV := "C"

def svX : SV := "X"

def svY : SV := "Y"

def placeCA : Place := ⟨"ca", "California"⟩

def placeNV : Place := ⟨"nv", "Nevada"⟩

def childPlace : Place := ⟨"ch", "Santa Clara County"⟩

def convInit : Conv := ⟨0, [], []⟩

def ccCounty : Classification :=
  ⟨ClassificationType.CONTAINED_IN, ClassificationAttributes.containedIn "County"⟩

def ccState : Classification :=
  ⟨ClassificationType.CONTAINED_IN, ClassificationAttributes.containedIn "State"⟩

/-- Environment in which sampling always succeeds, every variable has data
wherever the sampled place list is non-empty, everything is a variable, and
every registration is accepted. -/
def envAccept : Env :=
  { sample_child_places := fun _ _ => [childPlace],
    sv_has_data := fun places _ => !places.isEmpty,
    is_sv := fun _ => true,
    register := fun _ _ => true }

/-- Environment like `envAccept` but rejecting registration of any chart
whose first variable is `svB`. -/
def envRejectB : Env :=
  { envAccept with
    register := fun _ chart => decide (chart.chart_vars.svs.headD "" ≠ svB) }

/-- Environment like `envAccept` but sampling no children under
`placeCA`, so every existence filter at `placeCA` comes back empty. -/
def envNoCAChildren : Env :=
  { envAccept with
    sample_child_places := fun dcid _ => if dcid = "ca" then [] else [childPlace] }

def uttrC3 : Utterance :=
  ⟨[placeCA], [svA, svB, svC], [ccCounty], [⟨[], [svX], []⟩]⟩

/-- Claim C3 counterexample: with three main variables A, B, C and a
registration collaborator that rejects the chart for B, the three emission
attempts consume block identifiers 1, 2, 3 — the rejected attempt consumed
identifier 2 — and the successfully registered charts carry identifiers
1 and 3, which do not increase by exactly 1. -/
theorem rejected_emission_consumes_block_id_cex :
    ((emitsOf (newTrace convInit (populate envRejectB uttrC3 convInit))).map
        (fun e => (e.block_id, e.accepted)) = [(1, true), (2, false), (3, true)])
    ∧ ((populate envRejectB uttrC3 convInit).2.charts.map
        (fun c => c.chart_vars.block_id) = [1, 3])
    ∧ ¬ List.Chain' (fun a b => b = a + 1)
        ((populate envRejectB uttrC3 convInit).2.charts.map
          (fun c => c.chart_vars.block_id)) := by
  have h2 : (populate envRejectB uttrC3 convInit).2.charts.map
      (fun c => c.chart_vars.block_id) = [1, 3] := by decide
  refine ⟨by decide, h2, ?_⟩
  rw [h2]
  simp [List.chain'_cons]

def uttrC4 : Utterance :=
  ⟨[placeCA], [svA], [], [⟨[], [svX], []⟩]⟩

/-- Claim C4 witness: the first candidate intent succeeds, and appending a
second candidate intent — which would itself succeed — changes nothing. -/
theorem intent_search_short_circuit_witness :
    populateLoop envAccept uttrC4 ([ccCounty] ++ [ccState]) convInit
      = populateLoop envAccept uttrC4 [ccCounty] convInit :=
  intent_search_short_circuits_on_success envAccept uttrC4 [ccCounty] [ccState]
    convInit (by decide)

def uttrC5 : Utterance :=
  ⟨[placeCA], [svA], [ccCounty], [⟨[placeNV], [svX], []⟩]⟩

/-- Claim C5 counterexample: the current turn's detected-place sequence is
non-empty (it holds California, whose attempt fails the existence filter),
yet the search goes on to attempt — and succeed at — Nevada, a place drawn
from history only; so history places are not used only when the current
turn's places are empty. -/
theorem history_place_attempted_despite_current_places_cex :
    uttrC5.places ≠ []
    ∧ Event.placeAttempt placeNV ∈ (populate envNoCAChildren uttrC5 convInit).2.trace
    ∧ placeNV ∈ places_from_context uttrC5
    ∧ placeNV ∉ uttrC5.places
    ∧ (populate envNoCAChildren uttrC5 convInit).1 = true := by
  decide

/-- Claim C5 witness: with the current-turn place failing, the attempted
places of the intent attempt are the whole current-turn sequence followed
by a prefix of the history-derived sequence. -/
theorem history_places_follow_failed_current_places_witness :
    ∃ k, placesAttempted (newTrace convInit
        (_populate_correlation_for_place_type envNoCAChildren uttrC5 "County" convInit))
      = uttrC5.places ++ (places_from_context uttrC5).take k :=
  history_places_follow_failed_current_places envNoCAChildren uttrC5 "County" convInit
    (by decide)

/-- Claim C6 witness: at California the main-variable filter is empty, the
attempt fails without emitting, and the loop proceeds to Nevada. -/
theorem empty_filter_abandons_place_attempt_witness :
    (_populate_correlation_for_place envNoCAChildren uttrC5 "County" convInit
        placeCA).1 = false
    ∧ (_populate_correlation_for_place envNoCAChildren uttrC5 "County" convInit
        placeCA).2.charts = convInit.charts
    ∧ emitsOf (newTrace convInit (_populate_correlation_for_place envNoCAChildren
        uttrC5 "County" convInit placeCA)) = []
    ∧ placesLoop envNoCAChildren uttrC5 "County" (placeCA :: [placeNV]) convInit
        = placesLoop envNoCAChildren uttrC5 "County" [placeNV]
            (_populate_correlation_for_place envNoCAChildren uttrC5 "County" convInit
              placeCA).2 :=
  empty_filter_abandons_place_attempt envNoCAChildren uttrC5 "County" convInit placeCA
    [placeNV] (Or.inl (by decide))

def uttrC8 : Utterance :=
  ⟨[placeCA], [], [ccCounty], [⟨[], [svX], []⟩]⟩

/-- Claim C8 counterexample: with no current-turn variables the overall
result is false, but the main-variable existence filter IS invoked — a
main-filter event with the empty candidate list is in the trace — contrary
to the claim that it is never invoked. -/
theorem main_filter_invoked_on_empty_svs_cex :
    uttrC8.svs = []
    ∧ Event.mainFilter [] ∈ (populate envAccept uttrC8 convInit).2.trace
    ∧ (populate envAccept uttrC8 convInit).1 = false := by
  decide

/-- Claim C8 witness: the amended statement at a concrete conversation with
no current-turn variables. -/
theorem empty_svs_populate_false_witness :
    (populate envAccept uttrC8 convInit).1 = false
    ∧ (populate envAccept uttrC8 convInit).2.charts = convInit.charts
    ∧ ∀ e ∈ newTrace convInit (populate envAccept uttrC8 convInit),
        preContextEvent e = true :=
  empty_svs_populate_false envAccept uttrC8 convInit (by decide)

def uttrC9 : Utterance :=
  ⟨[placeCA], [svA],
    [⟨ClassificationType.CONTAINED_IN, ClassificationAttributes.other⟩,
     ⟨ClassificationType.OTHER, ClassificationAttributes.containedIn "County"⟩],
    [⟨[placeNV], [svX],
      [⟨ClassificationType.OTHER, ClassificationAttributes.other⟩]⟩]⟩

/-- Claim C9 witness: a conversation whose classifications are only of
other kinds or carry the wrong attribute variant is left unchanged. -/
theorem no_contained_in_intent_witness :
    populate envAccept uttrC9 convInit = (false, convInit) :=
  no_contained_in_intent_leaves_conversation_unchanged envAccept uttrC9 convInit
    (by decide)

def uttrC2 : Utterance :=
  ⟨[placeCA], [svA, svB], [ccCounty], [⟨[], [svX, svY], []⟩]⟩

/-- Claim C2 witness: the pairing description at a concrete place attempt
with two filtered main variables and two filtered context variables. -/
theorem pairing_attempts_witness :
    ∃ es : List EmitInfo,
      (_populate_correlation_for_place envAccept uttrC2 "County" convInit
          placeCA).2.trace
        = convInit.trace ++ [Event.placeAttempt placeCA,
            Event.mainFilter (mainCandidates envAccept uttrC2),
            Event.contextFilter (context_sv_candidates envAccept uttrC2)]
          ++ es.map EmitInfo.toEvent
      ∧ es.map EmitInfo.sv_1 = mainFiltered envAccept uttrC2 "County" placeCA
      ∧ es.length = (mainFiltered envAccept uttrC2 "County" placeCA).length
      ∧ (∀ e ∈ es, e.sv_2 = (contextFiltered envAccept uttrC2 "County" placeCA).head
            (by decide)
          ∧ e.place = placeCA)
      ∧ (_populate_correlation_for_place envAccept uttrC2 "County" convInit placeCA).1
          = es.any (fun e => e.accepted) :=
  pairing_attempts_every_main_with_first_context envAccept uttrC2 "County" convInit
    placeCA (by decide) (by decide)

/-- Claim C10 witness: one emission attempt increments the counter by 1 and
hands registration the incremented identifier; the whole place attempt with
two filtered main variables increments the counter by 2. -/
theorem block_counter_increment_witness :
    ((_populate_correlation_chart envAccept convInit placeCA svA svX).2.block_id
        = convInit.block_id + 1
      ∧ (_populate_correlation_chart envAccept convInit placeCA svA svX).1
          = envAccept.register convInit.charts
              (correlationChart (convInit.block_id + 1) placeCA svA svX))
    ∧ (_populate_correlation_for_place envAccept uttrC2 "County" convInit
        placeCA).2.block_id
      = convInit.block_id + (mainFiltered envAccept uttrC2 "County" placeCA).length :=
  ⟨(block_counter_increment_per_emission envAccept uttrC2 "County" convInit placeCA
      (by decide) (by decide)).1 convInit svA svX,
   (block_counter_increment_per_emission envAccept uttrC2 "County" convInit placeCA
      (by decide) (by decide)).2⟩
